import Mathlib

/-!
Shallow embedding of the execution core of the `rush` shell
(`src/lang/exec.rs`, with the driver in `src/main.rs`).

The OS is modelled explicitly:
* the filesystem is a list of existing paths (`World.fs`);
* `fork` always succeeds and allocates pids from a counter;
* `pipe` allocates two fresh descriptor numbers;
* the sequence of results delivered by the blocking `wait()` call is a
  finite trace of `WaitEv` events (`World.events`); when the trace is
  exhausted `wait()` fails (as the real call does with `ECHILD` once no
  children remain), which `next()` surfaces as `WaitFailed`;
* the child-side actions of `spawn_proc` (close list, dup'ed stdin/stdout,
  working directory, argv, environment augmentation) are recorded in a
  `SpawnRecord`, and parent-side fd operations in an action log, so that
  ordering claims about spawning and closing are statable.

Machine integers: pids and fds are `Int`, jids are `Nat` (the Rust `u32`
job counter; wrap-around at 2^32 is not reached in any statement here and
is not modelled).  Fallible operations return `Except RunError`;
`RunError.Panic` models a Rust panic (out-of-bounds index / `unwrap`),
`RunError.StackOverflow` models unbounded interpreter recursion (the
evaluator takes explicit fuel).
-/

/-- Error kinds of `lang::ErrorKind` as used by the execution core, plus
`Panic` (a Rust panic: `args[0]` on an empty vector, a failing `unwrap`),
`StackOverflow` (recursion fuel exhausted) and `WordError` (an error of the
opaque word compiler passed through unwrapped, as in the `Function` arm). -/
inductive RunError where
  | ExecFailed
  | PipelineCreationFailed
  | WaitFailed
  | MissingExecutable (name : String)
  | InvalidJobId (jid : Nat)
  | Panic
  | StackOverflow
  | WordError
deriving DecidableEq, Repr

/-- A filesystem path: absolute flag plus components.  Mirrors how
`std::path::PathBuf` values are compared and combined in the source; empty
components are dropped, and the `..`-tail special case of `file_name()`
(irrelevant to every statement below) is not modelled. -/
structure FsPath where
  absolute : Bool
  components : List String
deriving DecidableEq, Repr

/-- Split a character list on a separator, keeping empty segments (the
behavior of both `str::split` and `env::split_paths`). -/
def splitChAux (sep : Char) (acc : List Char) : List Char → List (List Char)
  | [] => [acc.reverse]
  | c :: cs =>
    if c = sep then acc.reverse :: splitChAux sep [] cs
    else splitChAux sep (c :: acc) cs

/-- Split a string on a one-character separator. -/
def strSplitOn (s : String) (sep : Char) : List String :=
  (splitChAux sep [] s.toList).map (fun l => ⟨l⟩)

/-- Rust `str::starts_with` for a string pattern. -/
def strStartsWith (s pre : String) : Bool :=
  pre.toList.isPrefixOf s.toList

/-- Parse a Rust path string (`PathBuf::from`). -/
def strToPath (s : String) : FsPath :=
  ⟨strStartsWith s "/", (strSplitOn s '/').filter (fun c => c ≠ "")⟩

/-- Rust `Path::push`: an absolute argument replaces the whole path, a
relative one appends its components. -/
def pushPath (p : FsPath) (name : String) : FsPath :=
  if strStartsWith name "/" then strToPath name
  else ⟨p.absolute, p.components ++ (strSplitOn name '/').filter (fun c => c ≠ "")⟩

/-- Rust `Path::with_file_name`: pop the final component (when there is
one), then push the argument.  This is the operation the source's
`find_executable` applies to each PATH entry. -/
def withFileName (p : FsPath) (name : String) : FsPath :=
  pushPath ⟨p.absolute, p.components.dropLast⟩ name

/-- Rust `Path::join`: push without popping.  This is the operation the
spec says a PATH lookup should apply (path + separator + program name). -/
def joinPath (p : FsPath) (name : String) : FsPath :=
  pushPath p name

/-- Modelled from the spec: the variable store (`env/variables.rs` is not
in the sources) is an opaque key/value map with read, write and lookup. -/
def Variables : Type := List (String × String)

/-- Lookup with the empty default, as `Variables::value` is used by the
core (`self.vars.value(&OsString::from("PATH"))`). -/
def varsValue (vars : Variables) (k : String) : String :=
  (List.lookup k vars).getD ""

/-- Modelled from the spec: a `Word` (`lang/word.rs` is not in the sources)
is opaque to the core and exposes one operation, `compile` against the
variable store, returning a byte string or an error.  The call sites in
`exec.rs` pass the store mutably (`w.compile(&mut ec.vars)`), so `compile`
may also update the store. -/
structure Word where
  compile : Variables → Except Unit (String × Variables)

/-- `lang::ast::ConditionOperator`. -/
inductive ConditionOperator where
  | AndIf
  | OrIf
deriving DecidableEq, BEq, Repr

/-- The command-tree variants consumed by `spawn_procs_from_ast`
(`lang::ast::Command`); variants hitting the `unimplemented!()` arm are
not part of any claim and are omitted. -/
inductive Command where
  | SimpleCommand (arguments : List Word)
  | Pipeline (pfrom pto : Command)
  | BraceGroup (commands : List Command)
  | Group (commands : List Command)
  | ConditionalPair (left right : Command) (operator : ConditionOperator)
  | Function (name : Word) (body : Command)
  | Comment (s : String)

/-- Modelled from the spec: the function store (`env/functions.rs` is not
in the sources) maps names to stored command bodies. -/
def Functions : Type := List (String × Command)

/-- `ExecutionContext { cwd, vars, funcs }`. -/
structure ExecutionContext where
  cwd : String
  vars : Variables
  funcs : Functions

/-- `ExitStatus { pid, exit_code, core_dumped, signal }`; the signal is
identified by its number. -/
structure ExitStatus where
  pid : Int
  exit_code : Int
  core_dumped : Bool
  signal : Option Int
deriving DecidableEq, Repr

/-- One result delivered by the OS `wait()` call: `WaitStatus::Exited`,
`WaitStatus::Signaled`, or any of the other variants the core ignores
(`_ => ()` in `next()`). -/
inductive WaitEv where
  | exited (pid : Int) (code : Int)
  | signaled (pid : Int) (sig : Int) (core : Bool)
  | other
deriving DecidableEq, Repr

/-- `JobManager { next_jid, running_jobs, completed_jobs }`.  The two
`BTreeMap`s are modelled as association lists with insert-replaces-key
semantics. -/
structure JobManager where
  next_jid : Nat
  running_jobs : List (Int × Nat)
  completed_jobs : List (Nat × ExitStatus)
deriving DecidableEq, Repr

/-- `BTreeMap::insert`: replace any existing binding of the key. -/
def insertA {α : Type} [DecidableEq α] {β : Type} (k : α) (v : β)
    (l : List (α × β)) : List (α × β) :=
  (k, v) :: l.filter (fun p => p.1 ≠ k)

/-- `ProcOptions { close_fds, env, stdin, stdout }`. -/
structure ProcOptions where
  close_fds : List Int
  env : List String
  stdin : Option Int
  stdout : Option Int
deriving DecidableEq, Repr

/-- Everything a forked child is told to do before exec: the observable
content of one `spawn_proc` call. -/
structure SpawnRecord where
  exe : FsPath
  args : List String
  cwd : String
  close_fds : List Int
  env : List String
  stdin : Option Int
  stdout : Option Int
deriving DecidableEq, Repr

/-- Parent-side trace entries: a fork+exec, a pipe creation, a parent
`close`. -/
inductive OsAction where
  | spawned (r : SpawnRecord)
  | pipeCreated (readEnd writeEnd : Int)
  | closedFd (fd : Int)
deriving DecidableEq, Repr

/-- The modelled OS and job-manager state threaded through evaluation. -/
structure World where
  fs : List FsPath
  selfPid : Int
  nextPid : Int
  nextFd : Int
  events : List WaitEv
  jm : JobManager
  log : List OsAction
deriving DecidableEq, Repr

/-- Helper of `ExecutionContext::find_executable`: walk the split PATH
entries in order, probing each with `with_file_name` (the source's
operation), and return the first probe that exists. -/
def findExecutableAux (fs : List FsPath) (prog : String) :
    List String → Except RunError FsPath
  | [] => .error (.MissingExecutable prog)
  | p :: ps =>
    let cand := withFileName (strToPath p) prog
    if cand ∈ fs then .ok cand else findExecutableAux fs prog ps

/-- `ExecutionContext::find_executable`: split the PATH variable's value on
`:` and probe each entry with `with_file_name`; fail with
`MissingExecutable` when no probe exists. -/
def find_executable (fs : List FsPath) (vars : Variables) (prog : String) :
    Except RunError FsPath :=
  findExecutableAux fs prog (strSplitOn (varsValue vars "PATH") ':')

/-- Helper of `findExecutableSpec`: probe each PATH entry by joining it
with the program name. -/
def findExecutableSpecAux (fs : List FsPath) (prog : String) :
    List String → Except RunError FsPath
  | [] => .error (.MissingExecutable prog)
  | p :: ps =>
    let cand := joinPath (strToPath p) prog
    if cand ∈ fs then .ok cand else findExecutableSpecAux fs prog ps

/-- Modelled from the spec: the PATH lookup the claim describes — return
the first PATH entry *joined* with the name that exists (the spec notes the
source's `with_file_name` is likely a bug and joining is the intent). -/
def findExecutableSpec (fs : List FsPath) (vars : Variables) (prog : String) :
    Except RunError FsPath :=
  findExecutableSpecAux fs prog (strSplitOn (varsValue vars "PATH") ':')

/-- `JobManager::add_job`: allocate the next Jid, bind the child's pid to
it in `running_jobs`, bump the counter. -/
def add_job (pid : Int) (jm : JobManager) : Nat × JobManager :=
  let jid := jm.next_jid
  (jid, { jm with
            next_jid := jm.next_jid + 1,
            running_jobs := insertA pid jid jm.running_jobs })

/-- `JobManager::spawn_proc`: fork (always succeeds in the model,
allocating a fresh pid), record what the child is told to do, register the
child with `add_job`, return the fresh Jid. -/
def spawn_proc (exe : FsPath) (args : List String) (path : String)
    (opts : ProcOptions) (w : World) : Nat × World :=
  let pid := w.nextPid
  let (jid, jm') := add_job pid w.jm
  (jid, { w with
            nextPid := w.nextPid + 1,
            jm := jm',
            log := w.log ++ [.spawned ⟨exe, args, path, opts.close_fds,
                                       opts.env, opts.stdin, opts.stdout⟩] })

/-- Loop body of `JobManager::next`: consume wait events until one is an
`Exited`/`Signaled` result for a pid present in `running_jobs`; exhausting
the trace is the wait error case (`WaitFailed`).  Returns the produced
`(Jid, ExitStatus)` pair and the remaining trace.  Note the source only
*reads* `running_jobs` here — it never removes the reaped pid. -/
def nextAux (running : List (Int × Nat)) :
    List WaitEv → Except RunError (Nat × ExitStatus) × List WaitEv
  | [] => (.error .WaitFailed, [])
  | .exited pid code :: rest =>
    match List.lookup pid running with
    | some jid => (.ok (jid, ⟨pid, code, false, none⟩), rest)
    | none => nextAux running rest
  | .signaled pid sig core :: rest =>
    match List.lookup pid running with
    | some jid => (.ok (jid, ⟨pid, -1, core, some sig⟩), rest)
    | none => nextAux running rest
  | .other :: rest => nextAux running rest

/-- `JobManager::next` on the world state. -/
def nextJob (w : World) : Except RunError (Nat × ExitStatus) × World :=
  let (r, rest) := nextAux w.jm.running_jobs w.events
  (r, { w with events := rest })

/-- `completed_jobs.insert`. -/
def insertCompleted (jid : Nat) (st : ExitStatus) (w : World) : World :=
  { w with jm := { w.jm with completed_jobs := insertA jid st w.jm.completed_jobs } }

/-- `collect::<BTreeSet<Jid>>`: deduplicate (order is irrelevant — the set
is only tested for emptiness and erased from). -/
def toSet : List Nat → List Nat
  | [] => []
  | x :: xs => let s := toSet xs; if x ∈ s then s else x :: s

/-- The `while incomplete.len() > 0` loop of `JobManager::await_all`,
holding the most recently reaped pair in `cur`.  Fuel is structural
bookkeeping only: each successful `nextJob` consumes at least one wait
event, so a caller passing `events.length + 1` can never hit the zero
case (`awaitLoop_fuel_stable` below makes this exact). -/
def awaitLoop : Nat → List Nat → Nat × ExitStatus → World →
    World × Option RunError
  | 0, _, _, w => (w, some .WaitFailed)
  | fuel + 1, incomplete, cur, w =>
    if incomplete.length > 0 then
      let w1 := insertCompleted cur.1 cur.2 w
      match nextJob w1 with
      | (.error e, w2) => (w2, some e)
      | (.ok cur', w2) => awaitLoop fuel (incomplete.erase cur'.1) cur' w2
    else (insertCompleted cur.1 cur.2 w, none)

/-- `JobManager::await_all`: collect the Jids not already completed, then
call `next()` once unconditionally and run the reap loop.  The returned
`Option RunError` is the `Result` the Rust function produces; every caller
in the source discards it while keeping the mutated state, which is why
the mutated `World` is returned in both outcomes. -/
def await_all (jids : List Nat) (w : World) : World × Option RunError :=
  let incomplete :=
    toSet (jids.filter (fun j => (List.lookup j w.jm.completed_jobs).isNone))
  match nextJob w with
  | (.error e, w') => (w', some e)
  | (.ok cur, w') => awaitLoop (w'.events.length + 1) incomplete cur w'

/-- The `jobs_left.last().map(|r| completed_jobs.get(r).unwrap().exit_code).unwrap_or(0)`
expression of the `ConditionalPair` arm: 0 when no Jids were produced, the
stored exit code of the last Jid otherwise, a panic when that Jid has no
stored status. -/
def lastCodeM (jids : List Nat) (completed : List (Nat × ExitStatus)) :
    Except RunError Int :=
  match jids.getLast? with
  | none => .ok 0
  | some j =>
    match List.lookup j completed with
    | some st => .ok st.exit_code
    | none => .error .Panic

/-- The argv-construction loop of the `SimpleCommand` arm: compile each
word left to right, threading the (mutably borrowed) variable store; any
word error surfaces as `ExecFailed`. -/
def compileArgs : List Word → Variables → Except RunError (List String × Variables)
  | [], vars => .ok ([], vars)
  | w :: ws, vars =>
    match w.compile vars with
    | .error _ => .error .ExecFailed
    | .ok (s, vars') =>
      match compileArgs ws vars' with
      | .error e => .error e
      | .ok (ss, vars'') => .ok (s :: ss, vars'')

/-- `JobManager::spawn_procs_from_ast`.  Structurally recursive on explicit
fuel (the Rust recursion is unbounded through the function-store body call;
fuel exhaustion models that as `StackOverflow`).  The `for` loops of the
two group arms are rendered as recursion on the same constructor with the
tail of the command list; `await_all`'s error result is discarded at every
use, exactly as in the source. -/
def spawn_procs_from_ast : Nat → ProcOptions → ExecutionContext → Command →
    World → Except RunError (List Nat × ExecutionContext × World)
  | 0, _, _, _, _ => .error .StackOverflow
  | fuel + 1, opts, ec, cmd, w =>
    match cmd with
    | .SimpleCommand arguments =>
      match compileArgs arguments ec.vars with
      | .error e => .error e
      | .ok (args, vars') =>
        let ec1 : ExecutionContext := { ec with vars := vars' }
        match args with
        | [] => .error .Panic
        | argv0 :: _ =>
          match List.lookup argv0 ec1.funcs with
          | some body => spawn_procs_from_ast fuel opts ec1 body w
          | none =>
            match (if ¬ strStartsWith argv0 "./"
                   then find_executable w.fs ec1.vars argv0
                   else .ok (strToPath argv0)) with
            | .error e => .error e
            | .ok exe =>
              let (jid, w') := spawn_proc exe args ec1.cwd opts w
              .ok ([jid], ec1, w')
    | .Pipeline pfrom pto =>
      let rEnd := w.nextFd
      let wEnd := w.nextFd + 1
      let w0 := { w with nextFd := w.nextFd + 2,
                         log := w.log ++ [.pipeCreated rEnd wEnd] }
      let close_from := opts.close_fds ++ [rEnd] ++ opts.stdout.toList
      let to_from := opts.close_fds ++ [wEnd] ++ opts.stdin.toList
      let from_opts : ProcOptions := ⟨close_from, opts.env, opts.stdin, some wEnd⟩
      let to_opts : ProcOptions := ⟨to_from, opts.env, some rEnd, opts.stdout⟩
      match spawn_procs_from_ast fuel from_opts ec pfrom w0 with
      | .error e => .error e
      | .ok (jf, ec1, w1) =>
        match spawn_procs_from_ast fuel to_opts ec1 pto w1 with
        | .error e => .error e
        | .ok (jt, ec2, w2) =>
          .ok (jf ++ jt, ec2,
               { w2 with log := w2.log ++ [.closedFd rEnd, .closedFd wEnd] })
    | .BraceGroup cmds =>
      match cmds with
      | [] => .ok ([], ec, w)
      | c :: cs =>
        match spawn_procs_from_ast fuel opts ec c w with
        | .error e => .error e
        | .ok (jids, ec1, w1) =>
          let w2 := (await_all jids w1).1
          match spawn_procs_from_ast fuel opts ec1 (.BraceGroup cs) w2 with
          | .error e => .error e
          | .ok (_, _, w3) => .ok ([], ec, w3)
    | .Group cmds =>
      match cmds with
      | [] => .ok ([], ec, w)
      | c :: cs =>
        match spawn_procs_from_ast fuel opts ec c w with
        | .error e => .error e
        | .ok (jids, ec1, w1) =>
          let w2 := (await_all jids w1).1
          match spawn_procs_from_ast fuel opts ec1 (.Group cs) w2 with
          | .error e => .error e
          | .ok (_, ec2, w3) => .ok ([], ec2, w3)
    | .ConditionalPair left right op =>
      match spawn_procs_from_ast fuel opts ec left w with
      | .error e => .error e
      | .ok (jl, ec1, w1) =>
        let w2 := (await_all jl w1).1
        match lastCodeM jl w2.jm.completed_jobs with
        | .error e => .error e
        | .ok code =>
          if (code == 0 && op == .AndIf) || (code != 0 && op == .OrIf) then
            match spawn_procs_from_ast fuel opts ec1 right w2 with
            | .error e => .error e
            | .ok (jr, ec2, w3) =>
              let w4 := (await_all jr w3).1
              .ok (jr, ec2, w4)
          else .ok (jl, ec1, w2)
    | .Function name body =>
      match name.compile ec.vars with
      | .error _ => .error .WordError
      | .ok (str_name, vars') =>
        .ok ([], { ec with vars := vars',
                           funcs := insertA str_name body ec.funcs }, w)
    | .Comment _ => .ok ([], ec, w)

/-- The `ProcOptions` built by `JobManager::run`: no redirections, no fds
to close, no environment augmentation. -/
def opts0 : ProcOptions := ⟨[], [], none, none⟩

/-- `JobManager::run`: evaluate the tree, await all produced Jids (the
`Result` of `await_all` is dropped, as in the source), and report the
stored status of the last Jid — or a synthetic exit-code-0 status carrying
the shell's own pid when the tree produced none. -/
def run (fuel : Nat) (ec : ExecutionContext) (c : Command) (w : World) :
    Except RunError (ExitStatus × ExecutionContext × World) :=
  match spawn_procs_from_ast fuel opts0 ec c w with
  | .error e => .error e
  | .ok (jids, ec1, w1) =>
    let w2 := (await_all jids w1).1
    match jids.getLast? with
    | none => .ok (⟨w2.selfPid, 0, false, none⟩, ec1, w2)
    | some j =>
      match List.lookup j w2.jm.completed_jobs with
      | some st => .ok (st, ec1, w2)
      | none => .error .Panic

/-! Concrete fixtures used by closed statements and witnesses. -/

/-- A word that expands to a fixed string and leaves the store unchanged. -/
def wordLit (s : String) : Word := ⟨fun vars => .ok (s, vars)⟩

/-- An empty execution context at cwd `/`. -/
def ec0 : ExecutionContext := ⟨"/", [], []⟩

/-- A fresh job manager. -/
def jm0 : JobManager := ⟨0, [], []⟩

/-- A world with the given wait-event trace, an empty filesystem, shell pid
1, child pids from 100, descriptors from 3. -/
def mkWorld (events : List WaitEv) : World := ⟨[], 1, 100, 3, events, jm0, []⟩

/-- The command `./t` (a single verbatim-path word). -/
def cmd0 : Command := .SimpleCommand [wordLit "./t"]

/-- A filesystem containing `/usr/bin/ls` and `/bin/ls`. -/
def fsDemo : List FsPath := [strToPath "/usr/bin/ls", strToPath "/bin/ls"]

/-- A variable store with `PATH=/usr/bin:/bin`. -/
def varsDemo : Variables := [("PATH", "/usr/bin:/bin")]

/-- The status `wait()` reports for pid 100 exiting cleanly. -/
def st100 : ExitStatus := ⟨100, 0, false, none⟩

/-- C1: with `PATH=/usr/bin:/bin` and both `/usr/bin/ls` and `/bin/ls`
existing, the source's `find_executable` probes `/usr/ls` (its
`with_file_name` replaces the PATH entry's last component) and fails with
`MissingExecutable "ls")`, while the lookup the claim describes — joining
each PATH entry with the name — returns `/usr/bin/ls`.  The claim is right
about the intent and the code is wrong, as the spec itself notes. -/
theorem find_executable_with_file_name_bug :
    find_executable fsDemo varsDemo "ls" = .error (.MissingExecutable "ls") ∧
    findExecutableSpec fsDemo varsDemo "ls" = .ok (strToPath "/usr/bin/ls") ∧
    withFileName (strToPath "/usr/bin") "ls" = strToPath "/usr/ls" := by
  refine ⟨rfl, rfl, by decide⟩

/-- C2: `await_all([])` is not a no-op.  With no reapable children it calls
`next()` once unconditionally, whose `wait()` fails, and returns
`WaitFailed` instead of success; with a reapable child pending it reaps it
(consuming the wait event and storing its status) even though no Jid was
asked for.  The claim that `next()` is called only while the pending set is
nonempty is right about the intent and the code is wrong. -/
theorem await_all_empty_calls_next :
    await_all [] (mkWorld []) = (mkWorld [], some .WaitFailed) ∧
    await_all [] { mkWorld [.exited 100 0] with jm := ⟨1, [(100, 0)], []⟩ } =
      ({ mkWorld [] with jm := ⟨1, [(100, 0)], [(0, st100)]⟩ }, none) := by
  refine ⟨by decide, by decide⟩

/-- C3: running `./t` (pid 100, jid 0) to completion leaves pid 100's entry
in `running_jobs` even after `next()` reaped it and its status was stored
in `completed_jobs`: the source never removes reaped pids, so jid 0 ends in
both maps and the two job sets are not disjoint, contrary to the claimed
invariant. -/
theorem running_jobs_never_removed :
    (run 5 ec0 cmd0 (mkWorld [.exited 100 0])).toOption.map
        (fun x => (x.1, x.2.2.jm.running_jobs, x.2.2.jm.completed_jobs)) =
      some (st100, [(100, 0)], [(0, st100)]) := by
  decide

/-- C4: a wait error arising while `run` awaits its spawned Jids is not
propagated.  Running `./t` with a wait trace that reaps the child and then
fails, `await_all` returns `WaitFailed` (first conjunct), yet `run`
discards that `Result` and returns the child's `ExitStatus` (second
conjunct). -/
theorem run_discards_wait_error :
    (spawn_procs_from_ast 5 opts0 ec0 cmd0 (mkWorld [.exited 100 0])).toOption.map
        (fun x => (x.1, (await_all x.1 x.2.2).2)) =
      some ([0], some .WaitFailed) ∧
    (run 5 ec0 cmd0 (mkWorld [.exited 100 0])).toOption.map (fun x => x.1) =
      some st100 := by
  refine ⟨by decide, by decide⟩

/-- C10: a `SimpleCommand` whose arguments sequence is empty makes
`spawn_procs_from_ast` index element 0 of the empty argv vector: a panic
(`RunError.Panic` in the model), not one of the documented error kinds
(`ExecFailed`, `PipelineCreationFailed`, `WaitFailed`, `MissingExecutable`,
`InvalidJobId`). -/
theorem simple_command_empty_argv_panics (fuel : Nat) (opts : ProcOptions)
    (ec : ExecutionContext) (w : World) :
    spawn_procs_from_ast (fuel + 1) opts ec (.SimpleCommand []) w =
      .error .Panic := rfl

/-- A successful `nextAux` consumes at least one wait event. -/
theorem nextAux_ok_events_lt (running : List (Int × Nat)) :
    ∀ (events rest : List WaitEv) (c : Nat × ExitStatus),
      nextAux running events = (.ok c, rest) → rest.length < events.length := by
  intro events
  induction events with
  | nil =>
    intro rest c h
    simp [nextAux] at h
  | cons e es ih =>
    intro rest c h
    cases e with
    | exited pid code =>
      rw [nextAux] at h
      cases hl : List.lookup pid running with
      | some j =>
        rw [hl] at h
        cases h
        exact Nat.lt_succ_self _
      | none =>
        rw [hl] at h
        exact Nat.lt_succ_of_lt (ih rest c h)
    | signaled pid sig core =>
      rw [nextAux] at h
      cases hl : List.lookup pid running with
      | some j =>
        rw [hl] at h
        cases h
        exact Nat.lt_succ_self _
      | none =>
        rw [hl] at h
        exact Nat.lt_succ_of_lt (ih rest c h)
    | other =>
      rw [nextAux] at h
      exact Nat.lt_succ_of_lt (ih rest c h)

/-- A successful `nextJob` strictly shrinks the wait-event trace. -/
theorem nextJob_ok_events_lt :
    ∀ (w : World) (cur' : Nat × ExitStatus) (w2 : World),
      nextJob w = (.ok cur', w2) → w2.events.length < w.events.length := by
  intro w cur' w2 h
  rw [nextJob] at h
  cases hx : nextAux w.jm.running_jobs w.events with
  | mk r rest =>
    rw [hx] at h
    dsimp only at h
    obtain ⟨h1, h2⟩ := Prod.mk.injEq .. ▸ h
    have hev : w2.events = rest := by rw [← h2]
    rw [hev]
    exact nextAux_ok_events_lt _ _ _ _ (h1 ▸ hx)

/-- The reap loop's fuel is irrelevant as long as it exceeds the number of
remaining wait events: the loop always exits through its own tests first,
so the fuel-exhaustion arm of `awaitLoop` is dead code for the fuel
`await_all` passes. -/
theorem awaitLoop_fuel_stable :
    ∀ (f1 f2 : Nat) (incomplete : List Nat) (cur : Nat × ExitStatus) (w : World),
      w.events.length < f1 → w.events.length < f2 →
      awaitLoop f1 incomplete cur w = awaitLoop f2 incomplete cur w := by
  intro f1
  induction f1 with
  | zero =>
    intro f2 incomplete cur w h1 _
    exact absurd h1 (Nat.not_lt_zero _)
  | succ n ih =>
    intro f2 incomplete cur w h1 h2
    cases f2 with
    | zero => exact absurd h2 (Nat.not_lt_zero _)
    | succ m =>
      rw [awaitLoop, awaitLoop]
      by_cases hinc : incomplete.length > 0
      · simp only [if_pos hinc]
        cases hn : nextJob (insertCompleted cur.1 cur.2 w) with
        | mk res w2 =>
          cases res with
          | error e => rfl
          | ok cur' =>
            have hlt : w2.events.length < w.events.length :=
              nextJob_ok_events_lt (insertCompleted cur.1 cur.2 w) cur' w2 hn
            exact ih m (incomplete.erase cur'.1) cur' w2
              (Nat.lt_of_lt_of_le hlt (Nat.le_of_lt_succ h1))
              (Nat.lt_of_lt_of_le hlt (Nat.le_of_lt_succ h2))
      · simp only [if_neg hinc]

/-- C5: when the tree evaluator succeeds, `run` awaits every produced Jid
and reports the stored status of the last one — or a synthetic exit-code-0
status when the Jid sequence is empty.  Second conjunct: a `Group` always
hands `run` an empty Jid sequence, so a top-level `Group` reports exit code
0 no matter how its last inner command exited. -/
theorem run_reports_last_jid_status :
    (∀ (fuel : Nat) (ec : ExecutionContext) (c : Command) (w : World)
       (jids : List Nat) (ec1 : ExecutionContext) (w1 : World),
       spawn_procs_from_ast fuel opts0 ec c w = .ok (jids, ec1, w1) →
       run fuel ec c w =
         match jids.getLast? with
         | none => .ok (⟨((await_all jids w1).1).selfPid, 0, false, none⟩, ec1,
                         (await_all jids w1).1)
         | some j =>
           match List.lookup j ((await_all jids w1).1).jm.completed_jobs with
           | some st => .ok (st, ec1, (await_all jids w1).1)
           | none => .error .Panic) ∧
    (∀ (fuel : Nat) (opts : ProcOptions) (ec : ExecutionContext)
       (cmds : List Command) (w : World) (r : List Nat × ExecutionContext × World),
       spawn_procs_from_ast fuel opts ec (.Group cmds) w = .ok r → r.1 = []) := by
  constructor
  · intro fuel ec c w jids ec1 w1 h
    simp only [run, h]
  · intro fuel opts ec cmds w r h
    cases fuel with
    | zero => exact absurd h (by simp [spawn_procs_from_ast])
    | succ n =>
      cases cmds with
      | nil =>
        simp only [spawn_procs_from_ast] at h
        cases h
        rfl
      | cons c cs =>
        simp only [spawn_procs_from_ast] at h
        split at h
        · cases h
        · split at h
          · cases h
          · cases h
            rfl

/-- Witness for C5: running a bare comment spawns nothing and reports the
synthetic status: exit code 0, the shell's own pid, no signal. -/
theorem run_reports_last_jid_status_witness :
    run 3 ec0 (.Comment "c") (mkWorld []) =
      .ok (⟨1, 0, false, none⟩, ec0, mkWorld []) := by
  have h := run_reports_last_jid_status.1 3 ec0 (.Comment "c") (mkWorld [])
      [] ec0 (mkWorld []) rfl
  exact h

/-- C6: the `ConditionalPair` arm spawns and awaits `left`, reads the
stored exit code of left's last Jid (0 when left produced no Jids), and
spawns, awaits and returns `right`'s Jids exactly when the operator/exit
code combination fires; otherwise it returns left's Jids, and the result
does not depend on `right` at all. -/
theorem conditional_pair_short_circuit :
    ∀ (fuel : Nat) (opts : ProcOptions) (ec : ExecutionContext) (l r : Command)
      (op : ConditionOperator) (w : World) (jl : List Nat)
      (ec1 : ExecutionContext) (w1 : World) (code : Int),
      spawn_procs_from_ast fuel opts ec l w = .ok (jl, ec1, w1) →
      lastCodeM jl ((await_all jl w1).1).jm.completed_jobs = .ok code →
      spawn_procs_from_ast (fuel + 1) opts ec (.ConditionalPair l r op) w =
        (if (code == 0 && op == .AndIf) || (code != 0 && op == .OrIf) then
           match spawn_procs_from_ast fuel opts ec1 r ((await_all jl w1).1) with
           | .error e => .error e
           | .ok (jr, ec2, w3) => .ok (jr, ec2, (await_all jr w3).1)
         else .ok (jl, ec1, (await_all jl w1).1)) := by
  intro fuel opts ec l r op w jl ec1 w1 code hl hc
  simp only [spawn_procs_from_ast, hl, hc]

/-- The world after spawning `./t` (pid 100, jid 0) against a wait trace
where that child exits with code 1. -/
def w1c6 : World :=
  ⟨[], 1, 101, 3, [.exited 100 1], ⟨1, [(100, 0)], []⟩,
   [.spawned ⟨strToPath "./t", ["./t"], "/", [], [], none, none⟩]⟩

/-- Witness for C6: in `./t && skipped` where `./t` exits 1, the pair
returns left's Jid list `[0]` and the right branch is never spawned. -/
theorem conditional_pair_short_circuit_witness :
    (spawn_procs_from_ast 6 opts0 ec0
        (.ConditionalPair cmd0 (.Comment "skipped") .AndIf)
        (mkWorld [.exited 100 1])).toOption.map (fun x => x.1) = some [0] := by
  have h := conditional_pair_short_circuit 5 opts0 ec0 cmd0 (.Comment "skipped")
      .AndIf (mkWorld [.exited 100 1]) [0] ec0 w1c6 1 rfl rfl
  rw [h]
  rfl

/-- C7: the `Pipeline` arm creates a pipe `(read, write)` at the next two
descriptors, spawns the writer side first with `stdout = write` and a
close list of the caller's `close_fds` plus the read end plus the caller's
stdout (when set), then spawns the reader side with `stdin = read` and the
caller's `close_fds` plus the write end plus the caller's stdin (when
set), and only after both sides are spawned appends the parent's two
closes of the pipe ends to the action log. -/
theorem pipeline_fd_discipline :
    ∀ (fuel : Nat) (opts : ProcOptions) (ec : ExecutionContext) (f t : Command)
      (w : World) (jf jt : List Nat) (ec1 ec2 : ExecutionContext) (w1 w2 : World),
      spawn_procs_from_ast fuel
          ⟨opts.close_fds ++ [w.nextFd] ++ opts.stdout.toList, opts.env,
           opts.stdin, some (w.nextFd + 1)⟩ ec f
          { w with nextFd := w.nextFd + 2,
                   log := w.log ++ [.pipeCreated w.nextFd (w.nextFd + 1)] } =
        .ok (jf, ec1, w1) →
      spawn_procs_from_ast fuel
          ⟨opts.close_fds ++ [w.nextFd + 1] ++ opts.stdin.toList, opts.env,
           some w.nextFd, opts.stdout⟩ ec1 t w1 = .ok (jt, ec2, w2) →
      spawn_procs_from_ast (fuel + 1) opts ec (.Pipeline f t) w =
        .ok (jf ++ jt, ec2,
             { w2 with log := w2.log ++ [.closedFd w.nextFd,
                                         .closedFd (w.nextFd + 1)] }) := by
  intro fuel opts ec f t w jf jt ec1 ec2 w1 w2 hf ht
  simp only [spawn_procs_from_ast, hf, ht]

/-- The command `./u` (second pipeline stage of the witness). -/
def cmdU : Command := .SimpleCommand [wordLit "./u"]

/-- The world after the writer side of `./t | ./u` was spawned: pipe fds 3
(read) and 4 (write) allocated, child pid 100 is jid 0, its close list
holds the read end and its stdout is the write end. -/
def wPipeFrom : World :=
  ⟨[], 1, 101, 5, [], ⟨1, [(100, 0)], []⟩,
   [.pipeCreated 3 4,
    .spawned ⟨strToPath "./t", ["./t"], "/", [3], [], none, some 4⟩]⟩

/-- The world after both sides of `./t | ./u` were spawned: reader child
pid 101 is jid 1, its close list holds the write end and its stdin is the
read end. -/
def wPipeTo : World :=
  ⟨[], 1, 102, 5, [], ⟨2, [(101, 1), (100, 0)], []⟩,
   [.pipeCreated 3 4,
    .spawned ⟨strToPath "./t", ["./t"], "/", [3], [], none, some 4⟩,
    .spawned ⟨strToPath "./u", ["./u"], "/", [4], [], some 3, none⟩]⟩

/-- Witness for C7: evaluating `./t | ./u` yields Jids `[0, 1]` (writer
first) and an action log of pipe creation, the two spawns with the claimed
redirections and close lists, and the parent's two closes last. -/
theorem pipeline_fd_discipline_witness :
    (spawn_procs_from_ast 6 opts0 ec0 (.Pipeline cmd0 cmdU)
        (mkWorld [])).toOption.map (fun x => (x.1, x.2.2.log)) =
      some ([0, 1],
            [.pipeCreated 3 4,
             .spawned ⟨strToPath "./t", ["./t"], "/", [3], [], none, some 4⟩,
             .spawned ⟨strToPath "./u", ["./u"], "/", [4], [], some 3, none⟩,
             .closedFd 3, .closedFd 4]) := by
  have h := pipeline_fd_discipline 5 opts0 ec0 cmd0 cmdU (mkWorld [])
      [0] [1] ec0 ec0 wPipeFrom wPipeTo rfl rfl
  rw [h]
  rfl

/-- Helper for C8: evaluating a `BraceGroup` is evaluating the same
commands as a `Group` (same world effects: spawns, awaits, job bookkeeping)
with the resulting Jid list emptied and the caller's context restored in
place of the sequentially mutated one. -/
theorem braceGroup_eq_group (fuel : Nat) :
    ∀ (opts : ProcOptions) (ec : ExecutionContext) (cmds : List Command) (w : World),
      spawn_procs_from_ast fuel opts ec (.BraceGroup cmds) w =
        match spawn_procs_from_ast fuel opts ec (.Group cmds) w with
        | .ok x => .ok ([], ec, x.2.2)
        | .error e => .error e := by
  induction fuel with
  | zero => intro opts ec cmds w; rfl
  | succ n ih =>
    intro opts ec cmds w
    cases cmds with
    | nil => rfl
    | cons c cs =>
      simp only [spawn_procs_from_ast]
      cases h : spawn_procs_from_ast n opts ec c w with
      | error e => rfl
      | ok x =>
        obtain ⟨j1, ec1, w1⟩ := x
        dsimp only
        rw [ih]
        cases spawn_procs_from_ast n opts ec1 (.Group cs) (await_all j1 w1).1 with
        | error e => rfl
        | ok y => rfl

/-- C8: a `BraceGroup` runs its body on a clone and therefore always hands
back the caller's `ExecutionContext` unchanged (first conjunct), while a
`Group` over the same body performs the identical spawns and awaits but
returns the sequentially mutated context — the exact context the
`BraceGroup` computed internally and discarded (second conjunct). -/
theorem brace_group_isolates_context :
    (∀ (fuel : Nat) (opts : ProcOptions) (ec : ExecutionContext)
       (cmds : List Command) (w : World) (jids : List Nat)
       (ec' : ExecutionContext) (w' : World),
       spawn_procs_from_ast fuel opts ec (.BraceGroup cmds) w = .ok (jids, ec', w') →
       ec' = ec ∧ jids = []) ∧
    (∀ (fuel : Nat) (opts : ProcOptions) (ec : ExecutionContext)
       (cmds : List Command) (w : World),
       spawn_procs_from_ast fuel opts ec (.BraceGroup cmds) w =
         match spawn_procs_from_ast fuel opts ec (.Group cmds) w with
         | .ok x => .ok ([], ec, x.2.2)
         | .error e => .error e) := by
  constructor
  · intro fuel opts ec cmds w jids ec' w' h
    rw [braceGroup_eq_group] at h
    split at h
    · cases h
      exact ⟨rfl, rfl⟩
    · cases h
  · intro fuel opts ec cmds w
    exact braceGroup_eq_group fuel opts ec cmds w

/-- The context-mutating body used by the C8 witness: a function
definition, which installs `f` into the context's function store. -/
def funcDef : Command := .Function (wordLit "f") (.Comment "b")

/-- Witness for C8: the brace group `{ f() {...} }` evaluates successfully
and leaves the caller's context untouched (its function store still has no
keys), while the plain group with the same body leaves `f` installed. -/
theorem brace_group_isolates_context_witness :
    spawn_procs_from_ast 3 opts0 ec0 (.BraceGroup [funcDef]) (mkWorld []) =
      .ok ([], ec0, mkWorld []) ∧
    (ec0 = ec0 ∧ ([] : List Nat) = []) ∧
    (spawn_procs_from_ast 3 opts0 ec0 (.Group [funcDef])
        (mkWorld [])).toOption.map (fun x => x.2.1.funcs.map Prod.fst) =
      some ["f"] :=
  ⟨rfl,
   brace_group_isolates_context.1 3 opts0 ec0 [funcDef] (mkWorld [])
     [] ec0 (mkWorld []) rfl,
   rfl⟩

/-- C9: every `(Jid, ExitStatus)` pair `next()` produces satisfies the
record invariant: a present signal forces `exit_code = -1` and comes from a
`Signaled` wait result carrying that signal and core flag; an absent signal
forces `core_dumped = false` and an `Exited` wait result whose raw code is
stored unchanged in `exit_code`. -/
theorem next_status_invariant :
    ∀ (running : List (Int × Nat)) (events rest : List WaitEv) (jid : Nat)
      (st : ExitStatus),
      nextAux running events = (.ok (jid, st), rest) →
      ((∀ s, st.signal = some s →
          st.exit_code = -1 ∧ WaitEv.signaled st.pid s st.core_dumped ∈ events) ∧
       (st.signal = none →
          st.core_dumped = false ∧ WaitEv.exited st.pid st.exit_code ∈ events)) := by
  intro running events
  induction events with
  | nil =>
    intro rest jid st h
    simp [nextAux] at h
  | cons e es ih =>
    intro rest jid st h
    cases e with
    | exited pid code =>
      rw [nextAux] at h
      cases hl : List.lookup pid running with
      | some j =>
        rw [hl] at h
        cases h
        constructor
        · intro s hs
          cases hs
        · intro _
          exact ⟨rfl, List.mem_cons_self _ _⟩
      | none =>
        rw [hl] at h
        obtain ⟨h1, h2⟩ := ih rest jid st h
        exact ⟨fun s hs => ⟨(h1 s hs).1, List.mem_cons_of_mem _ (h1 s hs).2⟩,
               fun hn => ⟨(h2 hn).1, List.mem_cons_of_mem _ (h2 hn).2⟩⟩
    | signaled pid sig core =>
      rw [nextAux] at h
      cases hl : List.lookup pid running with
      | some j =>
        rw [hl] at h
        cases h
        constructor
        · intro s hs
          cases hs
          exact ⟨rfl, List.mem_cons_self _ _⟩
        · intro hn
          cases hn
      | none =>
        rw [hl] at h
        obtain ⟨h1, h2⟩ := ih rest jid st h
        exact ⟨fun s hs => ⟨(h1 s hs).1, List.mem_cons_of_mem _ (h1 s hs).2⟩,
               fun hn => ⟨(h2 hn).1, List.mem_cons_of_mem _ (h2 hn).2⟩⟩
    | other =>
      rw [nextAux] at h
      obtain ⟨h1, h2⟩ := ih rest jid st h
      exact ⟨fun s hs => ⟨(h1 s hs).1, List.mem_cons_of_mem _ (h1 s hs).2⟩,
             fun hn => ⟨(h2 hn).1, List.mem_cons_of_mem _ (h2 hn).2⟩⟩

/-- Witness for C9: reaping pid 7's clean exit with code 5 gives a status
with `core_dumped = false` whose code came from the `Exited` wait result. -/
theorem next_status_invariant_witness :
    (⟨7, 5, false, none⟩ : ExitStatus).core_dumped = false ∧
    WaitEv.exited 7 5 ∈ [WaitEv.exited 7 5] :=
  (next_status_invariant [(7, 0)] [WaitEv.exited 7 5] [] 0 ⟨7, 5, false, none⟩
    rfl).2 rfl
